import Mathlib

/-!
# Wallpaper Changer: a shallow embedding of `ui/ui.go`

The Go package keeps its state in package-level variables and reacts to button
taps of the GUI toolkit.  The embedding below turns the package-level variables
into one record (`AppState`), every handler closure into a function on that
record, and everything the program cannot decide by itself (the random source,
the configuration file, the mail relay, the working directory, `osascript`)
into an explicit environment value.

Conventions
* a Go `string` is a Lean `String` (valid UTF-8 text, which is what the entry
  widgets deliver); `len` is the number of UTF-8 bytes, `regexp` works on the
  decoded code points, `==` is equality of the text;
* a Go `error` is an `Option String`, `none` being `nil`;
* a run-time panic (index out of range, `rand.Intn` with a non-positive
  argument) is the result `none` of an `Option`-valued handler;
* Go `int` is 64 bits wide; arithmetic on it is wrapped with `wrapInt64`;
* `log.Println` lines are not part of the model.
-/

namespace WallpaperChanger

open RegularExpression

/-! ## Go primitives -/

/-- Two's-complement wrap of a mathematical integer into the 64-bit Go `int`. -/
def wrapInt64 (x : Int) : Int := (x + 2 ^ 63) % 2 ^ 64 - 2 ^ 63

/-- Go `len(s)` for a string: the number of bytes of its UTF-8 encoding. -/
def goLen (s : String) : Int := (s.utf8ByteSize : Nat)

/-- Go slice indexing `xs[i]`; `none` stands for the index-out-of-range panic. -/
def index (xs : List String) (i : Int) : Option String :=
  if 0 ≤ i then xs.get? i.toNat else none

/-- The decimal digit character of `d` (for `d < 10`). -/
def digitChar (d : Nat) : Char := Char.ofNat (48 + d)

/-- Decimal digits of `n`, most significant first, pushed in front of `acc`.
The first argument bounds the number of digits produced. -/
def decimalDigits : Nat → Nat → List Char → List Char
  | 0, _, acc => acc
  | fuel + 1, n, acc =>
    if n < 10 then digitChar n :: acc
    else decimalDigits fuel (n / 10) (digitChar (n % 10) :: acc)

/-- Library function `strconv.Itoa`: the decimal rendering of an `int`, with a
leading minus sign for negative values.  A 64-bit value has at most 19 digits,
so the bound of 20 digits is never reached. -/
def Itoa (i : Int) : String :=
  if i < 0 then String.mk ('-' :: decimalDigits 20 i.natAbs [])
  else String.mk (decimalDigits 20 i.natAbs [])

/-- Library function `rand.Intn(n)`: panics when `n ≤ 0`, otherwise returns the
value `r` drawn by the random source, for which the library promises
`0 ≤ r < n`. -/
def Intn (r n : Int) : Option Int :=
  if n ≤ 0 then none else some r

/-! ## Regular expressions (library `regexp`)

A pattern is a `RegularExpression Char`; `regexp.MatchString` with a pattern
anchored by `^` and `$` is the derivative matcher `rmatch` on the whole list of
code points (in Go's syntax `$` without flags matches at the end of the text
only). -/

/-- The characters of a class range `lo-hi`. -/
def charRange (lo hi : Char) : List Char :=
  (List.range (hi.toNat - lo.toNat + 1)).map (fun i => Char.ofNat (lo.toNat + i))

/-- A bracket expression `[...]`, given by the list of its characters. -/
def anyOf (cs : List Char) : RegularExpression Char :=
  cs.foldr (fun c r => char c + r) 0

/-- The repetition `r+`. -/
def oneOrMore (r : RegularExpression Char) : RegularExpression Char := r * star r

/-- The repetition `r{2,}`. -/
def twoOrMore (r : RegularExpression Char) : RegularExpression Char := r * r * star r

/-- The class `[a-zA-Z0-9._%+-]`. -/
def localClass : List Char :=
  charRange 'a' 'z' ++ charRange 'A' 'Z' ++ charRange '0' '9' ++ ['.', '_', '%', '+', '-']

/-- The class `[a-zA-Z0-9.-]`. -/
def domainClass : List Char :=
  charRange 'a' 'z' ++ charRange 'A' 'Z' ++ charRange '0' '9' ++ ['.', '-']

/-- The class `[a-zA-Z]`. -/
def letterClass : List Char := charRange 'a' 'z' ++ charRange 'A' 'Z'

/-- The pattern of `validateEmail`:
`^[a-zA-Z0-9._%+-]+@[a-zA-Z0-9.-]+\.[a-zA-Z]{2,}$`. -/
def emailRegex : RegularExpression Char :=
  oneOrMore (anyOf localClass) * char '@' * oneOrMore (anyOf domainClass) * char '.' *
    twoOrMore (anyOf letterClass)

/-- Source function `validateEmail`: `regexp.MatchString(regex, email)`; the
error result is discarded (the constant pattern compiles). -/
def validateEmail (email : String) : Bool := emailRegex.rmatch email.data

/-- Source function `validatePassword`: `len(password) >= 8`. -/
def validatePassword (password : String) : Bool := decide (goLen password ≥ 8)

/-! ### The pattern as the specification writes it -/

/-- Perl class `\w` of Go's syntax: `[0-9A-Za-z_]`. -/
def wordClass : List Char :=
  charRange '0' '9' ++ charRange 'A' 'Z' ++ ['_'] ++ charRange 'a' 'z'

/-- The specification's pattern `^[\w.%+-]+@[\w.-]+\.[A-Za-z]{2,}$`. -/
def specEmailRegex : RegularExpression Char :=
  oneOrMore (anyOf (wordClass ++ ['.', '%', '+', '-'])) * char '@' *
    oneOrMore (anyOf (wordClass ++ ['.', '-'])) * char '.' *
    twoOrMore (anyOf (charRange 'A' 'Z' ++ charRange 'a' 'z'))

/-- A string matches the specification's pattern. -/
def matchesSpecPattern (s : String) : Bool := specEmailRegex.rmatch s.data

/-- The text of `s` from its first `@` on (empty when there is none). -/
def fromFirstAt (s : String) : List Char := s.data.dropWhile (fun c => c != '@')

/-- ASCII letter, in the specification's words. -/
def isAsciiLetter (c : Char) : Prop := ('a' ≤ c ∧ c ≤ 'z') ∨ ('A' ≤ c ∧ c ≤ 'Z')

/-- ASCII digit, in the specification's words. -/
def isAsciiDigit (c : Char) : Prop := '0' ≤ c ∧ c ≤ '9'

/-- Character allowed in the local part: letter, digit or one of `. _ % + -`. -/
def isLocalChar (c : Char) : Prop :=
  isAsciiLetter c ∨ isAsciiDigit c ∨ c = '.' ∨ c = '_' ∨ c = '%' ∨ c = '+' ∨ c = '-'

/-- Character allowed in the domain part: letter, digit or one of `. -`. -/
def isDomainChar (c : Char) : Prop :=
  isAsciiLetter c ∨ isAsciiDigit c ∨ c = '.' ∨ c = '-'

/-- The shape `local@domain.tld` of the specification, on strings. -/
def IsEmailShape (s : String) : Prop :=
  ∃ loc dom tld : String,
    s = loc ++ "@" ++ dom ++ "." ++ tld ∧
    loc ≠ "" ∧ (∀ c ∈ loc.data, isLocalChar c) ∧
    dom ≠ "" ∧ (∀ c ∈ dom.data, isDomainChar c) ∧
    2 ≤ tld.length ∧ (∀ c ∈ tld.data, isAsciiLetter c)

/-! ## Program state and environment -/

/-- The widget tree currently set as the window content. -/
inductive Screen
  | home
  | signUp
  | verifyCode
  | wallpaper
  deriving DecidableEq, Repr

/-- The package-level variables of `ui.go` together with the window content.
`signUpHidden` records `signUpContainer.Hide()`, `wallpaperObjects` is
`wallpaperContainer.Objects` (each image named by its path). -/
structure AppState where
  content : Screen
  signUpHidden : Bool
  verificationCode : String
  wallpaperPaths : List String
  currentWallpaperIndex : Int
  wallpaperObjects : List String
  deriving DecidableEq, Repr

/-- What a handler does besides updating `AppState`.  The two `call…` entries
record that the handler invoked `sendEmail` resp. `validateCode`. -/
inductive Effect
  | callSendEmail (email : String)
  | callValidateCode (code : String)
  | newLabel (text : String)
  | showInformation (title message : String)
  | showError (message : String)
  | osascript (script : String)
  deriving DecidableEq, Repr

/-- Source type `SMTPServer`. -/
structure SMTPServer where
  Host : String
  Port : String
  Username : String
  Password : String
  deriving DecidableEq, Repr

/-- The arguments of `smtp.PlainAuth`. -/
structure PlainAuth where
  identity : String
  username : String
  password : String
  host : String
  deriving DecidableEq, Repr

/-- What one call of `sendEmail` meets outside the program: the value drawn by
the random source, the result of `LoadConfig`, and the mail relay
(`smtp.SendMail` on address, authentication, sender, recipients, message). -/
structure MailWorld where
  randDraw : Int
  loadConfig : Except String SMTPServer
  sendMail : String → PlainAuth → String → List String → String → Option String

/-- What one call of `setWallpaperUsingAppleScript` meets outside the program:
`os.Getwd`, `filepath.Join` and the run of `osascript -e script`. -/
structure OsWorld where
  getwd : Except String String
  join : String → String → String
  runScript : String → Option String

/-! ## The functions of `ui.go` -/

/-- Source function `generateRandomCode`: `rand.Intn(max-min+1) + min`, with
`r` the value drawn by the random source. -/
def generateRandomCode (r min max : Int) : Option Int :=
  (Intn r (wrapInt64 (wrapInt64 (max - min) + 1))).map (fun v => wrapInt64 (v + min))

/-- Source function `validateCode`: `code == verificationCode`. -/
def validateCode (s : AppState) (code : String) : Bool :=
  decide (code = s.verificationCode)

/-- Source function `sendEmail`: the new state and the returned error. -/
def sendEmail (w : MailWorld) (s : AppState) (email : String) :
    Option (AppState × Option String) :=
  match generateRandomCode w.randDraw 100000 999999 with
  | none => none
  | some code =>
    let s1 := { s with verificationCode := Itoa code }
    match w.loadConfig with
    | .error e => some (s1, some e)
    | .ok serverConfig =>
      let auth : PlainAuth :=
        ⟨"", serverConfig.Username, serverConfig.Password, serverConfig.Host⟩
      let msg := "To: " ++ email ++ "\r\n" ++
        "Subject: Wallpaper Changer Email Verification!\r\n" ++
        "\r\n" ++
        "This is your unique verification code for Wallpaper Changer app. Code: " ++
        s1.verificationCode ++ "\r\n"
      some (s1, w.sendMail (serverConfig.Host ++ ":" ++ serverConfig.Port) auth
        serverConfig.Username [email] msg)

/-- Source function `homepage`: resets the index and shows the browser. -/
def homepage (s : AppState) : AppState :=
  { s with currentWallpaperIndex := 0, content := Screen.wallpaper }

/-- Source function `ShowSignUpForm`: a fresh form becomes the content. -/
def ShowSignUpForm (s : AppState) : AppState :=
  { s with signUpHidden := false, content := Screen.signUp }

/-- Source function `showVerificationCodeInput`. -/
def showVerificationCodeInput (s : AppState) : AppState :=
  { s with content := Screen.verifyCode }

/-- Source function `SetupUI`: a fresh, empty `wallpaperContainer` and the
welcome box with the buttons "Sign Up" and "Test". -/
def SetupUI (s : AppState) : AppState :=
  { s with wallpaperObjects := [], content := Screen.home }

/-- The package-level variables as initialised by their declarations. -/
def initGlobals : AppState :=
  { content := Screen.home
    signUpHidden := false
    verificationCode := ""
    wallpaperPaths := ["ui/assets/001.jpg", "ui/assets/002.jpeg"]
    currentWallpaperIndex := 0
    wallpaperObjects := [] }

/-- The state in which `main` enters the run loop. -/
def initialState : AppState := SetupUI initGlobals

/-- The closure of the "Sign Up" button of the sign-up form, on the texts of
the e-mail, password and confirmation entries. -/
def signUpSubmit (w : MailWorld) (s : AppState) (email password confirm : String) :
    Option (AppState × List Effect) :=
  if validateEmail email then
    if password = confirm then
      if validatePassword password then
        let s1 := { s with signUpHidden := true }
        match sendEmail w s1 email with
        | none => none
        | some (s2, some _) => some (s2, [Effect.callSendEmail email])
        | some (s2, none) => some (showVerificationCodeInput s2, [Effect.callSendEmail email])
      else
        some (s, [Effect.newLabel "Password must be at least 8 characters long"])
    else
      some (s, [Effect.newLabel "Passwords do not match"])
  else
    some (s, [Effect.newLabel "Invalid email address"])

/-- The closure of the "Verify" button, on the text of the code entry. -/
def verifySubmit (s : AppState) (code : String) : AppState × List Effect :=
  if validateCode s code then
    (homepage s, [Effect.callValidateCode code,
      Effect.showInformation "Verification Successful" "Code verified successfully!"])
  else
    (s, [Effect.callValidateCode code, Effect.showError "Invalid verification code"])

/-- The closure of the "Previous" button.  `loadImageFromFileWithSize` always
returns a nil error, so the image of the path replaces the container's
objects. -/
def previousHandler (s : AppState) : Option AppState :=
  let i := wrapInt64 (s.currentWallpaperIndex - 1)
  let i := if i < 0 then wrapInt64 ((s.wallpaperPaths.length : Int) - 1) else i
  match index s.wallpaperPaths i with
  | none => none
  | some path => some { s with currentWallpaperIndex := i, wallpaperObjects := [path] }

/-- The closure of the "Next" button. -/
def nextHandler (s : AppState) : Option AppState :=
  let i := wrapInt64 (s.currentWallpaperIndex + 1)
  let i := if i ≥ (s.wallpaperPaths.length : Int) then 0 else i
  match index s.wallpaperPaths i with
  | none => none
  | some path => some { s with currentWallpaperIndex := i, wallpaperObjects := [path] }

/-- Source function `getFullPath`. -/
def getFullPath (w : OsWorld) (relativePath : String) : Except String String :=
  match w.getwd with
  | .error e => .error e
  | .ok wd => .ok (w.join wd relativePath)

/-- Source function `setWallpaperUsingAppleScript`: the returned error and the
script that was run, if any. -/
def setWallpaperUsingAppleScript (w : OsWorld) (imagePath : String) :
    Option String × List Effect :=
  match getFullPath w imagePath with
  | .error e => (some e, [])
  | .ok fullImagePath =>
    let script := "\n        set wallpaperImage to \"" ++ fullImagePath ++
      "\"\n        tell application \"System Events\"\n" ++
      "            set picture of every desktop to wallpaperImage\n" ++
      "        end tell\n    "
    (w.runScript script, [Effect.osascript script])

/-- The closure of the "Set Wallpaper" button. -/
def setWallpaperHandler (w : OsWorld) (s : AppState) : Option (AppState × List Effect) :=
  match index s.wallpaperPaths s.currentWallpaperIndex with
  | none => none
  | some currentWallpaperPath =>
    match setWallpaperUsingAppleScript w currentWallpaperPath with
    | (some _, effects) => some (s, effects)
    | (none, effects) =>
      some (s, effects ++ [Effect.showInformation "Wallpaper Set"
        "The wallpaper has been set as the desktop background."])

/-- A sample environment for `sendEmail`: the draw 382913 and a configuration
file that cannot be read. -/
def noConfigWorld : MailWorld :=
  ⟨382913, Except.error "no config", fun _ _ _ _ _ => none⟩

/-- A sample state of the verification screen, with the code "482913" stored. -/
def verifyingState : AppState :=
  { initialState with content := Screen.verifyCode, verificationCode := "482913" }

/-! ## The event loop -/

/-- A user action: the tap of one of the buttons the program creates, with the
texts of the entries the closure reads and the environment it will meet. -/
inductive Event
  | tapSignUp
  | tapTest
  | submitSignUp (w : MailWorld) (email password confirm : String)
  | submitVerify (code : String)
  | tapPrevious
  | tapNext
  | tapSetWallpaper (w : OsWorld)

/-- The buttons each window content holds. -/
def available : Screen → Event → Bool
  | Screen.home, Event.tapSignUp => true
  | Screen.home, Event.tapTest => true
  | Screen.signUp, Event.submitSignUp _ _ _ _ => true
  | Screen.verifyCode, Event.submitVerify _ => true
  | Screen.wallpaper, Event.tapPrevious => true
  | Screen.wallpaper, Event.tapNext => true
  | Screen.wallpaper, Event.tapSetWallpaper _ => true
  | _, _ => false

/-- The closure bound to each button. -/
def handle (s : AppState) : Event → Option (AppState × List Effect)
  | Event.tapSignUp => some (ShowSignUpForm s, [])
  | Event.tapTest => some (homepage s, [])
  | Event.submitSignUp w email password confirm => signUpSubmit w s email password confirm
  | Event.submitVerify code => some (verifySubmit s code)
  | Event.tapPrevious => (previousHandler s).map (fun t => (t, []))
  | Event.tapNext => (nextHandler s).map (fun t => (t, []))
  | Event.tapSetWallpaper w => setWallpaperHandler w s

/-- One turn of the event loop; an action on a button that is not on the
screen does nothing. -/
def step (s : AppState) (e : Event) : Option (AppState × List Effect) :=
  if available s.content e then handle s e else some (s, [])

/-- The event loop on a finite sequence of user actions: the final state and
all effects in order, or `none` if a handler panicked. -/
def run : AppState → List Event → Option (AppState × List Effect)
  | s, [] => some (s, [])
  | s, e :: es =>
    match step s e with
    | none => none
    | some (s1, effects1) =>
      match run s1 es with
      | none => none
      | some (s2, effects2) => some (s2, effects1 ++ effects2)

/-- The operations on the wallpaper cursor. -/
inductive WallpaperOp
  | reset
  | next
  | previous
  | setWallpaper (w : OsWorld)

/-- The handler of each cursor operation (`reset` is entering `homepage`). -/
def applyOp (s : AppState) : WallpaperOp → Option AppState
  | WallpaperOp.reset => some (homepage s)
  | WallpaperOp.next => nextHandler s
  | WallpaperOp.previous => previousHandler s
  | WallpaperOp.setWallpaper w => (setWallpaperHandler w s).map Prod.fst

/-- A finite sequence of cursor operations. -/
def runOps : AppState → List WallpaperOp → Option AppState
  | s, [] => some s
  | s, op :: ops =>
    match applyOp s op with
    | none => none
    | some s1 => runOps s1 ops

/-- The handler `h` applied `n` times in a row. -/
def iterate (h : AppState → Option AppState) : Nat → AppState → Option AppState
  | 0, s => some s
  | n + 1, s =>
    match h s with
    | none => none
    | some s1 => iterate h n s1


/-! ## Lemmas on the regular-expression combinators -/

theorem anyOf_rmatch_iff (cs x : List Char) :
    (anyOf cs).rmatch x = true ↔ ∃ c ∈ cs, x = [c] := by
  induction cs with
  | nil =>
    have h : anyOf [] = (0 : RegularExpression Char) := rfl
    rw [h, zero_rmatch]
    simp
  | cons a cs ih =>
    have h : anyOf (a :: cs) = char a + anyOf cs := rfl
    rw [h, add_rmatch_iff, char_rmatch_iff, ih]
    simp

theorem star_anyOf_rmatch_iff (cs x : List Char) :
    (star (anyOf cs)).rmatch x = true ↔ ∀ c ∈ x, c ∈ cs := by
  rw [star_rmatch_iff]
  constructor
  · rintro ⟨S, rfl, hS⟩ c hc
    rw [List.mem_flatten] at hc
    obtain ⟨t, ht, hct⟩ := hc
    obtain ⟨d, hd, rfl⟩ := (anyOf_rmatch_iff cs t).1 (hS t ht).2
    simp at hct
    subst hct
    exact hd
  · intro h
    refine ⟨x.map (fun c => [c]), ?_, ?_⟩
    · clear h
      induction x with
      | nil => rfl
      | cons a x ih => simpa [List.flatten] using ih
    · intro t ht
      rw [List.mem_map] at ht
      obtain ⟨c, hc, rfl⟩ := ht
      exact ⟨by simp, (anyOf_rmatch_iff cs [c]).2 ⟨c, h c hc, rfl⟩⟩

theorem oneOrMore_anyOf_rmatch_iff (cs x : List Char) :
    (oneOrMore (anyOf cs)).rmatch x = true ↔ x ≠ [] ∧ ∀ c ∈ x, c ∈ cs := by
  unfold oneOrMore
  rw [mul_rmatch_iff]
  constructor
  · rintro ⟨t, u, rfl, ht, hu⟩
    obtain ⟨c, hc, rfl⟩ := (anyOf_rmatch_iff cs t).1 ht
    rw [star_anyOf_rmatch_iff] at hu
    refine ⟨by simp, ?_⟩
    intro d hd
    simp at hd
    rcases hd with rfl | hd
    · exact hc
    · exact hu d hd
  · rintro ⟨hne, h⟩
    cases x with
    | nil => exact absurd rfl hne
    | cons a x =>
      refine ⟨[a], x, rfl, (anyOf_rmatch_iff cs [a]).2 ⟨a, h a (by simp), rfl⟩, ?_⟩
      rw [star_anyOf_rmatch_iff]
      intro c hc
      exact h c (by simp [hc])

theorem twoOrMore_anyOf_rmatch_iff (cs x : List Char) :
    (twoOrMore (anyOf cs)).rmatch x = true ↔ 2 ≤ x.length ∧ ∀ c ∈ x, c ∈ cs := by
  unfold twoOrMore
  rw [mul_rmatch_iff]
  constructor
  · rintro ⟨t, u, rfl, ht, hu⟩
    rw [mul_rmatch_iff] at ht
    obtain ⟨t1, t2, rfl, h1, h2⟩ := ht
    obtain ⟨c1, hc1, rfl⟩ := (anyOf_rmatch_iff cs t1).1 h1
    obtain ⟨c2, hc2, rfl⟩ := (anyOf_rmatch_iff cs t2).1 h2
    rw [star_anyOf_rmatch_iff] at hu
    refine ⟨by simp, ?_⟩
    intro d hd
    simp at hd
    rcases hd with rfl | rfl | hd
    · exact hc1
    · exact hc2
    · exact hu d hd
  · rintro ⟨hlen, h⟩
    match x, hlen, h with
    | a :: b :: x, _, h =>
      refine ⟨[a, b], x, rfl, ?_, ?_⟩
      · rw [mul_rmatch_iff]
        exact ⟨[a], [b], rfl, (anyOf_rmatch_iff cs [a]).2 ⟨a, h a (by simp), rfl⟩,
          (anyOf_rmatch_iff cs [b]).2 ⟨b, h b (by simp), rfl⟩⟩
      · rw [star_anyOf_rmatch_iff]
        intro c hc
        exact h c (by simp [hc])

/-- A pattern of the shape `[L]+@[D]+\.[T]{2,}` matches exactly the texts
`loc ++ "@" ++ dom ++ "." ++ tld` with the three parts drawn from the classes. -/
theorem shape_rmatch_iff (L D T x : List Char) :
    (oneOrMore (anyOf L) * char '@' * oneOrMore (anyOf D) * char '.' *
        twoOrMore (anyOf T)).rmatch x = true ↔
      ∃ loc dom tld : List Char, x = loc ++ '@' :: (dom ++ '.' :: tld) ∧
        (loc ≠ [] ∧ ∀ c ∈ loc, c ∈ L) ∧ (dom ≠ [] ∧ ∀ c ∈ dom, c ∈ D) ∧
        (2 ≤ tld.length ∧ ∀ c ∈ tld, c ∈ T) := by
  simp only [mul_rmatch_iff, char_rmatch_iff, oneOrMore_anyOf_rmatch_iff,
    twoOrMore_anyOf_rmatch_iff]
  constructor
  · rintro ⟨_, tld, rfl, ⟨_, _, rfl, ⟨_, dom, rfl, ⟨loc, _, rfl, hl, rfl⟩, hd⟩, rfl⟩, ht⟩
    exact ⟨loc, dom, tld, by simp, hl, hd, ht⟩
  · rintro ⟨loc, dom, tld, rfl, hl, hd, ht⟩
    exact ⟨loc ++ '@' :: (dom ++ ['.']), tld, by simp,
      ⟨loc ++ '@' :: dom, ['.'], by simp, ⟨loc ++ ['@'], dom, by simp,
        ⟨loc, ['@'], rfl, hl, rfl⟩, hd⟩, rfl⟩, ht⟩


/-! ## The character classes -/

theorem mem_charRange_of_toNat (lo hi c : Char) (h1 : lo.toNat ≤ c.toNat)
    (h2 : c.toNat ≤ hi.toNat) : c ∈ charRange lo hi := by
  unfold charRange
  rw [List.mem_map]
  refine ⟨c.toNat - lo.toNat, ?_, ?_⟩
  · rw [List.mem_range]; omega
  · rw [Nat.add_sub_cancel' h1]
    exact Char.ofNat_toNat c

theorem char_le_iff_toNat (a b : Char) : a ≤ b ↔ a.toNat ≤ b.toNat := by
  rw [Char.le_def]
  exact UInt32.le_def

theorem mem_lower_iff (c : Char) : c ∈ charRange 'a' 'z' ↔ 'a' ≤ c ∧ c ≤ 'z' := by
  constructor
  · revert c; decide
  · rw [char_le_iff_toNat, char_le_iff_toNat]
    exact fun h => mem_charRange_of_toNat _ _ _ h.1 h.2

theorem mem_upper_iff (c : Char) : c ∈ charRange 'A' 'Z' ↔ 'A' ≤ c ∧ c ≤ 'Z' := by
  constructor
  · revert c; decide
  · rw [char_le_iff_toNat, char_le_iff_toNat]
    exact fun h => mem_charRange_of_toNat _ _ _ h.1 h.2

theorem mem_digit_iff (c : Char) : c ∈ charRange '0' '9' ↔ '0' ≤ c ∧ c ≤ '9' := by
  constructor
  · revert c; decide
  · rw [char_le_iff_toNat, char_le_iff_toNat]
    exact fun h => mem_charRange_of_toNat _ _ _ h.1 h.2

theorem mem_letterClass_iff (c : Char) : c ∈ letterClass ↔ isAsciiLetter c := by
  simp only [letterClass, List.mem_append, mem_lower_iff, mem_upper_iff, isAsciiLetter]

theorem mem_localClass_iff (c : Char) : c ∈ localClass ↔ isLocalChar c := by
  simp only [localClass, List.mem_append, mem_lower_iff, mem_upper_iff, mem_digit_iff,
    isLocalChar, isAsciiLetter, isAsciiDigit, List.mem_cons, List.mem_singleton,
    List.not_mem_nil, or_false, or_assoc]

theorem mem_domainClass_iff (c : Char) : c ∈ domainClass ↔ isDomainChar c := by
  simp only [domainClass, List.mem_append, mem_lower_iff, mem_upper_iff, mem_digit_iff,
    isDomainChar, isAsciiLetter, isAsciiDigit, List.mem_cons, List.mem_singleton,
    List.not_mem_nil, or_false, or_assoc]


/-! ## Validator -/

theorem validateEmail_iff_data (s : String) :
    validateEmail s = true ↔
      ∃ loc dom tld : List Char, s.data = loc ++ '@' :: (dom ++ '.' :: tld) ∧
        (loc ≠ [] ∧ ∀ c ∈ loc, c ∈ localClass) ∧ (dom ≠ [] ∧ ∀ c ∈ dom, c ∈ domainClass) ∧
        (2 ≤ tld.length ∧ ∀ c ∈ tld, c ∈ letterClass) := by
  unfold validateEmail emailRegex
  exact shape_rmatch_iff localClass domainClass letterClass s.data

theorem matchesSpecPattern_iff_data (s : String) :
    matchesSpecPattern s = true ↔
      ∃ loc dom tld : List Char, s.data = loc ++ '@' :: (dom ++ '.' :: tld) ∧
        (loc ≠ [] ∧ ∀ c ∈ loc, c ∈ wordClass ++ ['.', '%', '+', '-']) ∧
        (dom ≠ [] ∧ ∀ c ∈ dom, c ∈ wordClass ++ ['.', '-']) ∧
        (2 ≤ tld.length ∧ ∀ c ∈ tld, c ∈ charRange 'A' 'Z' ++ charRange 'a' 'z') := by
  unfold matchesSpecPattern specEmailRegex
  exact shape_rmatch_iff _ _ _ s.data

theorem string_split_iff (s loc dom tld : String) :
    s = loc ++ "@" ++ dom ++ "." ++ tld ↔
      s.data = loc.data ++ '@' :: (dom.data ++ '.' :: tld.data) := by
  rw [String.ext_iff]
  simp [String.data_append]

theorem string_ne_empty_iff (s : String) : s ≠ "" ↔ s.data ≠ [] := by
  rw [Ne, String.ext_iff]

/-- C2: `validateEmail s` is true exactly when the whole of `s` splits as
`local ++ "@" ++ domain ++ "." ++ tld` with a non-empty local part of ASCII
letters, digits and `. _ % + -`, a non-empty domain of ASCII letters, digits
and `. -`, and a final label of at least two ASCII letters. -/
theorem validateEmail_iff_shape (s : String) : validateEmail s = true ↔ IsEmailShape s := by
  rw [validateEmail_iff_data]
  unfold IsEmailShape
  constructor
  · rintro ⟨loc, dom, tld, hs, ⟨hl0, hl⟩, ⟨hd0, hd⟩, ⟨ht0, ht⟩⟩
    refine ⟨String.mk loc, String.mk dom, String.mk tld, ?_, ?_, ?_, ?_, ?_, ?_, ?_⟩
    · rw [string_split_iff]; exact hs
    · rw [string_ne_empty_iff]; exact hl0
    · exact fun c hc => (mem_localClass_iff c).1 (hl c hc)
    · rw [string_ne_empty_iff]; exact hd0
    · exact fun c hc => (mem_domainClass_iff c).1 (hd c hc)
    · exact ht0
    · exact fun c hc => (mem_letterClass_iff c).1 (ht c hc)
  · rintro ⟨loc, dom, tld, hs, hl0, hl, hd0, hd, ht0, ht⟩
    refine ⟨loc.data, dom.data, tld.data, (string_split_iff s loc dom tld).1 hs,
      ⟨(string_ne_empty_iff loc).1 hl0, fun c hc => (mem_localClass_iff c).2 (hl c hc)⟩,
      ⟨(string_ne_empty_iff dom).1 hd0, fun c hc => (mem_domainClass_iff c).2 (hd c hc)⟩,
      ⟨ht0, fun c hc => (mem_letterClass_iff c).2 (ht c hc)⟩⟩

set_option maxRecDepth 100000 in
/-- A trailing newline is not swallowed by the final `$`. -/
theorem validateEmail_trailing_newline :
    validateEmail "a@b.co" = true ∧ validateEmail "a@b.co\n" = false := by
  decide

/-- C1 (failing input): the password "éééé" has four characters, yet
`validatePassword` accepts it, because `len` counts its eight UTF-8 bytes. -/
theorem validatePassword_counts_bytes :
    validatePassword "éééé" = true ∧ "éééé".length = 4 ∧ ¬ (8 ≤ "éééé".length) := by
  decide

set_option maxRecDepth 100000 in
/-- C3 (counterexample): "a@b_c.com" matches the specification's pattern, whose
`\w` admits an underscore in the domain, and `validateEmail` rejects it. -/
theorem validateEmail_rejects_domain_underscore :
    matchesSpecPattern "a@b_c.com" = true ∧ validateEmail "a@b_c.com" = false := by
  decide


theorem dropWhile_append_of_all {α : Type} (p : α → Bool) (l r : List α)
    (h : ∀ a ∈ l, p a = true) : (l ++ r).dropWhile p = r.dropWhile p := by
  induction l with
  | nil => rfl
  | cons a l ih =>
    have ha : p a = true := h a (by simp)
    rw [List.cons_append, List.dropWhile_cons, if_pos ha]
    exact ih (fun b hb => h b (by simp [hb]))

theorem specLocal_subset : ∀ c ∈ wordClass ++ ['.', '%', '+', '-'],
    c ∈ localClass ∧ (c != '@') = true := by
  decide

theorem specDomain_subset : ∀ c ∈ wordClass ++ ['.', '-'], c ≠ '_' → c ∈ domainClass := by
  decide

theorem specLetter_subset : ∀ c ∈ charRange 'A' 'Z' ++ charRange 'a' 'z', c ∈ letterClass := by
  decide

/-- C3 (amended): a string that matches the specification's pattern
`^[\w.%+-]+@[\w.-]+\.[A-Za-z]{2,}$` and has no underscore from its `@` on is
accepted by `validateEmail`. -/
theorem validateEmail_of_specPattern (s : String) (hm : matchesSpecPattern s = true)
    (hu : '_' ∉ fromFirstAt s) : validateEmail s = true := by
  rw [matchesSpecPattern_iff_data] at hm
  obtain ⟨loc, dom, tld, hs, ⟨hl0, hl⟩, ⟨hd0, hd⟩, ⟨ht0, ht⟩⟩ := hm
  rw [validateEmail_iff_data]
  have hdrop : fromFirstAt s = '@' :: (dom ++ '.' :: tld) := by
    unfold fromFirstAt
    rw [hs, dropWhile_append_of_all _ _ _ (fun c hc => (specLocal_subset c (hl c hc)).2)]
    rfl
  rw [hdrop] at hu
  refine ⟨loc, dom, tld, hs, ⟨hl0, fun c hc => (specLocal_subset c (hl c hc)).1⟩,
    ⟨hd0, fun c hc => specDomain_subset c (hd c hc) ?_⟩,
    ⟨ht0, fun c hc => specLetter_subset c (ht c hc)⟩⟩
  rintro rfl
  exact hu (by simp [hc])

set_option maxRecDepth 100000 in
/-- Witness of C3 (amended): "a_b@c-d.com". -/
theorem validateEmail_of_specPattern_witness :
    matchesSpecPattern "a_b@c-d.com" = true ∧ '_' ∉ fromFirstAt "a_b@c-d.com" ∧
      validateEmail "a_b@c-d.com" = true :=
  ⟨by decide, by decide, validateEmail_of_specPattern "a_b@c-d.com" (by decide) (by decide)⟩


/-! ## Notifier -/

theorem wrapInt64_of_range (x : Int) (h1 : -2 ^ 63 ≤ x) (h2 : x < 2 ^ 63) :
    wrapInt64 x = x := by
  unfold wrapInt64
  omega

theorem digitChar_isDigit : ∀ d < 10, (digitChar d).isDigit = true := by
  decide

theorem decimalDigits_six (n : Nat) (h1 : 100000 ≤ n) (h2 : n ≤ 999999) :
    decimalDigits 20 n [] =
      [digitChar (n / 10 / 10 / 10 / 10 / 10), digitChar (n / 10 / 10 / 10 / 10 % 10),
        digitChar (n / 10 / 10 / 10 % 10), digitChar (n / 10 / 10 % 10),
        digitChar (n / 10 % 10), digitChar (n % 10)] := by
  have e1 : ¬ n < 10 := by omega
  have e2 : ¬ n / 10 < 10 := by omega
  have e3 : ¬ n / 10 / 10 < 10 := by omega
  have e4 : ¬ n / 10 / 10 / 10 < 10 := by omega
  have e5 : ¬ n / 10 / 10 / 10 / 10 < 10 := by omega
  have e6 : n / 10 / 10 / 10 / 10 / 10 < 10 := by omega
  simp only [decimalDigits, e1, e2, e3, e4, e5, e6, if_true, if_false]

theorem Itoa_six_digits (code : Int) (h1 : 100000 ≤ code) (h2 : code ≤ 999999) :
    (Itoa code).length = 6 ∧ ∀ c ∈ (Itoa code).data, c.isDigit = true := by
  have hneg : ¬ code < 0 := by omega
  have hn1 : 100000 ≤ code.natAbs := by omega
  have hn2 : code.natAbs ≤ 999999 := by omega
  unfold Itoa
  rw [if_neg hneg, decimalDigits_six _ hn1 hn2]
  refine ⟨rfl, ?_⟩
  intro c hc
  simp only [List.mem_cons, List.mem_singleton, List.not_mem_nil, or_false] at hc
  rcases hc with rfl | rfl | rfl | rfl | rfl | rfl <;>
    exact digitChar_isDigit _ (by omega)

theorem generateRandomCode_eq (r min max : Int)
    (hmin : -2 ^ 63 ≤ min ∧ min < 2 ^ 63) (hmax : -2 ^ 63 ≤ max ∧ max < 2 ^ 63)
    (h0 : 0 ≤ r) (hn : r < wrapInt64 (wrapInt64 (max - min) + 1)) (hm : r < max - min + 1) :
    generateRandomCode r min max = some (min + r) := by
  have hpos : ¬ wrapInt64 (wrapInt64 (max - min) + 1) ≤ 0 := by omega
  have hr : wrapInt64 (r + min) = min + r := by
    unfold wrapInt64 at hn ⊢
    omega
  simp only [generateRandomCode, Intn, if_neg hpos, Option.map_some', hr]

theorem generateRandomCode_six (r : Int) :
    generateRandomCode r 100000 999999 = some (wrapInt64 (r + 100000)) := by
  have hn : wrapInt64 (wrapInt64 (999999 - 100000) + 1) = 900000 := by decide
  unfold generateRandomCode Intn
  rw [hn, if_neg (by decide)]
  rfl

theorem sendEmail_stores (w : MailWorld) (s : AppState) (email : String) :
    ∃ err, sendEmail w s email =
      some ({ s with verificationCode := Itoa (wrapInt64 (w.randDraw + 100000)) }, err) := by
  cases hcfg : w.loadConfig with
  | error e =>
    simp only [sendEmail, generateRandomCode_six, hcfg]
    exact ⟨_, rfl⟩
  | ok cfg =>
    simp only [sendEmail, generateRandomCode_six, hcfg]
    exact ⟨_, rfl⟩

/-- C4: for a draw `r` that `rand.Intn(max-min+1)` can return, `0 ≤ r < max-min+1`,
`generateRandomCode` returns `min + r`, which lies in `[min, max]`; and `sendEmail`,
for every draw the random source can return for `Intn(900000)`, stores the decimal
rendering of a code in `[100000, 999999]`, a string of exactly six digits. -/
theorem generateRandomCode_in_range (r min max : Int) (w : MailWorld) (s : AppState)
    (email : String)
    (hmin : -2 ^ 63 ≤ min ∧ min < 2 ^ 63) (hmax : -2 ^ 63 ≤ max ∧ max < 2 ^ 63)
    (h0 : 0 ≤ r) (hn : r < wrapInt64 (wrapInt64 (max - min) + 1)) (hm : r < max - min + 1)
    (hw : 0 ≤ w.randDraw ∧ w.randDraw < 999999 - 100000 + 1) :
    (generateRandomCode r min max = some (min + r) ∧ min ≤ min + r ∧ min + r ≤ max) ∧
      ∃ code s1 err,
        generateRandomCode w.randDraw 100000 999999 = some code ∧
        100000 ≤ code ∧ code ≤ 999999 ∧
        sendEmail w s email = some (s1, err) ∧
        s1.verificationCode = Itoa code ∧
        s1.verificationCode.length = 6 ∧ ∀ c ∈ s1.verificationCode.data, c.isDigit = true := by
  refine ⟨⟨generateRandomCode_eq r min max hmin hmax h0 hn hm, by omega, by omega⟩, ?_⟩
  have hwrap : wrapInt64 (w.randDraw + 100000) = w.randDraw + 100000 :=
    wrapInt64_of_range _ (by omega) (by omega)
  have hd := Itoa_six_digits (w.randDraw + 100000) (by omega) (by omega)
  obtain ⟨err, he⟩ := sendEmail_stores w s email
  rw [hwrap] at he
  exact ⟨w.randDraw + 100000, _, err, by rw [generateRandomCode_six, hwrap], by omega,
    by omega, he, rfl, hd.1, hd.2⟩

/-- Witness of C4: the draw 3 for the range `[10, 20]`, and the draw 382913 in
`sendEmail` with a configuration file that cannot be read. -/
theorem generateRandomCode_in_range_witness :
    (generateRandomCode 3 10 20 = some (10 + 3) ∧ (10 : Int) ≤ 10 + 3 ∧ (10 : Int) + 3 ≤ 20) ∧
      ∃ code s1 err,
        generateRandomCode 382913 100000 999999 = some code ∧
        100000 ≤ code ∧ code ≤ 999999 ∧
        sendEmail noConfigWorld initialState "a@b.co" = some (s1, err) ∧
        s1.verificationCode = Itoa code ∧
        s1.verificationCode.length = 6 ∧ ∀ c ∈ s1.verificationCode.data, c.isDigit = true :=
  generateRandomCode_in_range 3 10 20 noConfigWorld initialState "a@b.co"
    (by decide) (by decide) (by decide) (by decide) (by decide) (by decide)

/-- The bound on the draw matters: in the corner where `max - min + 1` overflows
the 64-bit `int` to a positive value, the result leaves `[min, max]`. -/
theorem generateRandomCode_overflow_corner :
    generateRandomCode 1 (2 ^ 63 - 1) (-2 ^ 63) = some (-2 ^ 63) := by
  decide


/-! ## WallpaperController -/

theorem index_of_bounds (xs : List String) (i : Int) (h0 : 0 ≤ i) (h1 : i < xs.length) :
    ∃ p, index xs i = some p := by
  unfold index
  rw [if_pos h0]
  have hlt : i.toNat < xs.length := by omega
  exact ⟨xs.get ⟨i.toNat, hlt⟩, List.get?_eq_get hlt⟩

theorem next_index_eq (i len : Int) (h0 : 0 ≤ i) (h1 : i < len) (h2 : len < 2 ^ 63) :
    (if wrapInt64 (i + 1) ≥ len then 0 else wrapInt64 (i + 1)) = (i + 1) % len := by
  rw [wrapInt64_of_range _ (by omega) (by omega)]
  by_cases h : i + 1 ≥ len
  · have he : i + 1 = len := by omega
    rw [if_pos h, he, Int.emod_self]
  · rw [if_neg h, Int.emod_eq_of_lt (by omega) (by omega)]

theorem previous_index_eq (i len : Int) (h0 : 0 ≤ i) (h1 : i < len) (h2 : len < 2 ^ 63) :
    (if wrapInt64 (i - 1) < 0 then wrapInt64 (len - 1) else wrapInt64 (i - 1)) =
      (i - 1 + len) % len := by
  rw [wrapInt64_of_range (i - 1) (by omega) (by omega),
    wrapInt64_of_range (len - 1) (by omega) (by omega)]
  by_cases h : i - 1 < 0
  · have he : i = 0 := by omega
    have hm : (0 - 1 + len) % len = len - 1 := by
      rw [show (0 : Int) - 1 + len = len - 1 by ring]
      exact Int.emod_eq_of_lt (by omega) (by omega)
    rw [if_pos h, he, hm]
  · rw [if_neg h, Int.add_emod_self, Int.emod_eq_of_lt (by omega) (by omega)]

theorem nextHandler_eq (s : AppState) (h0 : 0 ≤ s.currentWallpaperIndex)
    (h1 : s.currentWallpaperIndex < s.wallpaperPaths.length)
    (h2 : (s.wallpaperPaths.length : Int) < 2 ^ 63) :
    ∃ p, index s.wallpaperPaths ((s.currentWallpaperIndex + 1) % s.wallpaperPaths.length)
        = some p ∧
      nextHandler s = some { s with
        currentWallpaperIndex := (s.currentWallpaperIndex + 1) % s.wallpaperPaths.length
        wallpaperObjects := [p] } := by
  have hpos : (0 : Int) < s.wallpaperPaths.length := by omega
  obtain ⟨p, hp⟩ := index_of_bounds s.wallpaperPaths
    ((s.currentWallpaperIndex + 1) % s.wallpaperPaths.length)
    (Int.emod_nonneg _ (by omega)) (Int.emod_lt_of_pos _ hpos)
  refine ⟨p, hp, ?_⟩
  simp only [nextHandler, next_index_eq _ _ h0 h1 h2, hp]

theorem previousHandler_eq (s : AppState) (h0 : 0 ≤ s.currentWallpaperIndex)
    (h1 : s.currentWallpaperIndex < s.wallpaperPaths.length)
    (h2 : (s.wallpaperPaths.length : Int) < 2 ^ 63) :
    ∃ p, index s.wallpaperPaths
        ((s.currentWallpaperIndex - 1 + s.wallpaperPaths.length) % s.wallpaperPaths.length)
        = some p ∧
      previousHandler s = some { s with
        currentWallpaperIndex :=
          (s.currentWallpaperIndex - 1 + s.wallpaperPaths.length) % s.wallpaperPaths.length
        wallpaperObjects := [p] } := by
  have hpos : (0 : Int) < s.wallpaperPaths.length := by omega
  obtain ⟨p, hp⟩ := index_of_bounds s.wallpaperPaths
    ((s.currentWallpaperIndex - 1 + s.wallpaperPaths.length) % s.wallpaperPaths.length)
    (Int.emod_nonneg _ (by omega)) (Int.emod_lt_of_pos _ hpos)
  refine ⟨p, hp, ?_⟩
  simp only [previousHandler, previous_index_eq _ _ h0 h1 h2, hp]

theorem scenario_next (t : AppState) (A B : String) (ht : t.wallpaperPaths = [A, B])
    (ht0 : t.currentWallpaperIndex = 0) :
    nextHandler t = some { t with currentWallpaperIndex := 1, wallpaperObjects := [B] } := by
  have hlen : (t.wallpaperPaths.length : Int) = 2 := by rw [ht]; rfl
  obtain ⟨p, hp, he⟩ := nextHandler_eq t (by omega) (by omega) (by omega)
  have hidx : (t.currentWallpaperIndex + 1) % (t.wallpaperPaths.length : Int) = 1 := by
    rw [ht0, hlen]; decide
  rw [hidx] at hp he
  rw [ht] at hp
  have hB : index [A, B] 1 = some B := rfl
  rw [hB] at hp
  rw [he, ← Option.some.inj hp]

theorem scenario_next_again (t : AppState) (A B : String) (ht : t.wallpaperPaths = [A, B])
    (ht1 : t.currentWallpaperIndex = 1) :
    nextHandler t = some { t with currentWallpaperIndex := 0, wallpaperObjects := [A] } := by
  have hlen : (t.wallpaperPaths.length : Int) = 2 := by rw [ht]; rfl
  obtain ⟨p, hp, he⟩ := nextHandler_eq t (by omega) (by omega) (by omega)
  have hidx : (t.currentWallpaperIndex + 1) % (t.wallpaperPaths.length : Int) = 0 := by
    rw [ht1, hlen]; decide
  rw [hidx] at hp he
  rw [ht] at hp
  have hA : index [A, B] 0 = some A := rfl
  rw [hA] at hp
  rw [he, ← Option.some.inj hp]

theorem scenario_previous (t : AppState) (A B : String) (ht : t.wallpaperPaths = [A, B])
    (ht0 : t.currentWallpaperIndex = 0) :
    previousHandler t = some { t with currentWallpaperIndex := 1, wallpaperObjects := [B] } := by
  have hlen : (t.wallpaperPaths.length : Int) = 2 := by rw [ht]; rfl
  obtain ⟨p, hp, he⟩ := previousHandler_eq t (by omega) (by omega) (by omega)
  have hidx : (t.currentWallpaperIndex - 1 + (t.wallpaperPaths.length : Int)) %
      (t.wallpaperPaths.length : Int) = 1 := by
    rw [ht0, hlen]; decide
  rw [hidx] at hp he
  rw [ht] at hp
  have hB : index [A, B] 1 = some B := rfl
  rw [hB] at hp
  rw [he, ← Option.some.inj hp]

/-- C5: with a cursor inside a non-empty catalog, the Next handler sets the cursor
to `(cursor + 1) mod len`, the Previous handler to `(cursor - 1 + len) mod len`,
and each displays the catalog entry at the new cursor; on the catalog `[A, B]`
from cursor 0, Next shows `B` at cursor 1, Next again shows `A` at cursor 0, and
Previous from cursor 0 shows `B` at cursor 1. -/
theorem next_previous_wrap (s t : AppState) (A B : String)
    (hmax : (s.wallpaperPaths.length : Int) < 2 ^ 63)
    (h0 : 0 ≤ s.currentWallpaperIndex)
    (h1 : s.currentWallpaperIndex < s.wallpaperPaths.length)
    (ht : t.wallpaperPaths = [A, B]) (ht0 : t.currentWallpaperIndex = 0) :
    (∃ p, index s.wallpaperPaths ((s.currentWallpaperIndex + 1) % s.wallpaperPaths.length)
        = some p ∧
      nextHandler s = some { s with
        currentWallpaperIndex := (s.currentWallpaperIndex + 1) % s.wallpaperPaths.length
        wallpaperObjects := [p] }) ∧
    (∃ p, index s.wallpaperPaths
        ((s.currentWallpaperIndex - 1 + s.wallpaperPaths.length) % s.wallpaperPaths.length)
        = some p ∧
      previousHandler s = some { s with
        currentWallpaperIndex :=
          (s.currentWallpaperIndex - 1 + s.wallpaperPaths.length) % s.wallpaperPaths.length
        wallpaperObjects := [p] }) ∧
    (nextHandler t = some { t with currentWallpaperIndex := 1, wallpaperObjects := [B] } ∧
      nextHandler { t with currentWallpaperIndex := 1, wallpaperObjects := [B] } =
        some { t with currentWallpaperIndex := 0, wallpaperObjects := [A] } ∧
      previousHandler t = some { t with currentWallpaperIndex := 1, wallpaperObjects := [B] }) :=
  ⟨nextHandler_eq s h0 h1 hmax, previousHandler_eq s h0 h1 hmax,
    scenario_next t A B ht ht0,
    scenario_next_again { t with currentWallpaperIndex := 1, wallpaperObjects := [B] } A B ht rfl,
    scenario_previous t A B ht ht0⟩


/-- Witness of C5: the program's own catalog, from the initial cursor. -/
theorem next_previous_wrap_witness :
    nextHandler initialState = some { initialState with
      currentWallpaperIndex := 1, wallpaperObjects := ["ui/assets/002.jpeg"] } :=
  (next_previous_wrap initialState initialState "ui/assets/001.jpg" "ui/assets/002.jpeg"
    (by decide) (by decide) (by decide) rfl rfl).2.2.1

theorem setWallpaperHandler_state (w : OsWorld) (s : AppState) (p : String)
    (hp : index s.wallpaperPaths s.currentWallpaperIndex = some p) :
    (setWallpaperHandler w s).map Prod.fst = some s := by
  unfold setWallpaperHandler
  rw [hp]
  rcases hr : setWallpaperUsingAppleScript w p with ⟨_ | e, effects⟩ <;>
    simp only [hr, Option.map_some']

theorem applyOp_inv (s : AppState) (op : WallpaperOp) (h0 : 0 ≤ s.currentWallpaperIndex)
    (h1 : s.currentWallpaperIndex < s.wallpaperPaths.length)
    (h2 : (s.wallpaperPaths.length : Int) < 2 ^ 63) :
    ∃ s1, applyOp s op = some s1 ∧ s1.wallpaperPaths = s.wallpaperPaths ∧
      0 ≤ s1.currentWallpaperIndex ∧ s1.currentWallpaperIndex < s.wallpaperPaths.length := by
  have hpos : (0 : Int) < s.wallpaperPaths.length := by omega
  cases op with
  | reset => exact ⟨homepage s, rfl, rfl, le_refl _, hpos⟩
  | next =>
    obtain ⟨p, -, he⟩ := nextHandler_eq s h0 h1 h2
    exact ⟨_, he, rfl, Int.emod_nonneg _ (by omega), Int.emod_lt_of_pos _ hpos⟩
  | previous =>
    obtain ⟨p, -, he⟩ := previousHandler_eq s h0 h1 h2
    exact ⟨_, he, rfl, Int.emod_nonneg _ (by omega), Int.emod_lt_of_pos _ hpos⟩
  | setWallpaper w =>
    obtain ⟨p, hp⟩ := index_of_bounds s.wallpaperPaths s.currentWallpaperIndex h0 h1
    exact ⟨s, setWallpaperHandler_state w s p hp, rfl, h0, h1⟩

theorem runOps_inv (ops : List WallpaperOp) : ∀ s : AppState, 0 ≤ s.currentWallpaperIndex →
    s.currentWallpaperIndex < s.wallpaperPaths.length →
    (s.wallpaperPaths.length : Int) < 2 ^ 63 →
    ∃ s1, runOps s ops = some s1 ∧ s1.wallpaperPaths = s.wallpaperPaths ∧
      0 ≤ s1.currentWallpaperIndex ∧ s1.currentWallpaperIndex < s.wallpaperPaths.length := by
  induction ops with
  | nil => exact fun s h0 h1 _ => ⟨s, rfl, rfl, h0, h1⟩
  | cons op ops ih =>
    intro s h0 h1 h2
    obtain ⟨s1, he, hp, g0, g1⟩ := applyOp_inv s op h0 h1 h2
    obtain ⟨s2, he2, hp2, k0, k1⟩ := ih s1 g0 (by rw [hp]; exact g1) (by rw [hp]; exact h2)
    refine ⟨s2, ?_, hp2.trans hp, k0, by rw [← hp]; exact k1⟩
    simp only [runOps, he, he2]

/-- C6: from a state with a non-empty catalog and cursor 0, every finite sequence
of reset, Next, Previous and Set Wallpaper runs without an out-of-bounds access
and ends in a state with `0 ≤ index ≤ len - 1`, where `wallpaperPaths[index]`
exists. -/
theorem index_in_bounds (s0 : AppState) (ops : List WallpaperOp)
    (hne : s0.wallpaperPaths ≠ []) (hmax : (s0.wallpaperPaths.length : Int) < 2 ^ 63)
    (h0 : s0.currentWallpaperIndex = 0) :
    ∃ s, runOps s0 ops = some s ∧ s.wallpaperPaths = s0.wallpaperPaths ∧
      0 ≤ s.currentWallpaperIndex ∧
      s.currentWallpaperIndex ≤ (s.wallpaperPaths.length : Int) - 1 ∧
      ∃ p, index s.wallpaperPaths s.currentWallpaperIndex = some p := by
  have hpos : 0 < s0.wallpaperPaths.length := List.length_pos.2 hne
  obtain ⟨s, he, hp, g0, g1⟩ := runOps_inv ops s0 (by omega) (by omega) hmax
  rw [← hp] at g1
  exact ⟨s, he, hp, g0, by omega, index_of_bounds _ _ g0 g1⟩

/-- Witness of C6: a sequence of all four operations on the program's own
catalog, with an `osascript` run that fails. -/
theorem index_in_bounds_witness :
    ∃ s, runOps initialState [WallpaperOp.previous, WallpaperOp.previous,
        WallpaperOp.previous, WallpaperOp.setWallpaper
          ⟨Except.ok "/wd", fun a b => a ++ "/" ++ b, fun _ => some "exit status 1"⟩,
        WallpaperOp.next, WallpaperOp.reset, WallpaperOp.next] = some s ∧
      s.wallpaperPaths = initialState.wallpaperPaths ∧
      0 ≤ s.currentWallpaperIndex ∧
      s.currentWallpaperIndex ≤ (s.wallpaperPaths.length : Int) - 1 ∧
      ∃ p, index s.wallpaperPaths s.currentWallpaperIndex = some p :=
  index_in_bounds initialState _ (by decide) (by decide) rfl

theorem iterate_next (k : Nat) : ∀ s : AppState, 0 ≤ s.currentWallpaperIndex →
    s.currentWallpaperIndex < s.wallpaperPaths.length →
    (s.wallpaperPaths.length : Int) < 2 ^ 63 →
    ∃ s1, iterate nextHandler k s = some s1 ∧ s1.wallpaperPaths = s.wallpaperPaths ∧
      s1.currentWallpaperIndex = (s.currentWallpaperIndex + k) % s.wallpaperPaths.length ∧
      (0 < k → ∃ p, index s1.wallpaperPaths s1.currentWallpaperIndex = some p ∧
        s1.wallpaperObjects = [p]) := by
  induction k with
  | zero =>
    intro s h0 h1 _
    refine ⟨s, rfl, rfl, ?_, fun h => absurd h (by decide)⟩
    rw [Nat.cast_zero, Int.add_zero, Int.emod_eq_of_lt h0 h1]
  | succ k ih =>
    intro s h0 h1 h2
    have hpos : (0 : Int) < s.wallpaperPaths.length := by omega
    obtain ⟨p, hp, he⟩ := nextHandler_eq s h0 h1 h2
    obtain ⟨s2, he2, hp2, hi2, hd2⟩ := ih
      { s with
        currentWallpaperIndex := (s.currentWallpaperIndex + 1) % s.wallpaperPaths.length
        wallpaperObjects := [p] }
      (Int.emod_nonneg _ (by omega)) (Int.emod_lt_of_pos _ hpos) h2
    refine ⟨s2, ?_, hp2, ?_, fun _ => ?_⟩
    · simp only [iterate, he, he2]
    · rw [hi2]
      show ((s.currentWallpaperIndex + 1) % (s.wallpaperPaths.length : Int) + (k : Int)) %
        (s.wallpaperPaths.length : Int) = _
      rw [Int.emod_add_emod, Nat.cast_succ]
      congr 1
      ring
    · rcases Nat.eq_zero_or_pos k with hk | hk
      · subst hk
        have hs2 : s2 = _ := (Option.some.inj he2).symm
        rw [hs2]
        exact ⟨p, hp, rfl⟩
      · exact hd2 hk

theorem iterate_previous (k : Nat) : ∀ s : AppState, 0 ≤ s.currentWallpaperIndex →
    s.currentWallpaperIndex < s.wallpaperPaths.length →
    (s.wallpaperPaths.length : Int) < 2 ^ 63 →
    ∃ s1, iterate previousHandler k s = some s1 ∧ s1.wallpaperPaths = s.wallpaperPaths ∧
      s1.currentWallpaperIndex = (s.currentWallpaperIndex + -(k : Int)) % s.wallpaperPaths.length ∧
      (0 < k → ∃ p, index s1.wallpaperPaths s1.currentWallpaperIndex = some p ∧
        s1.wallpaperObjects = [p]) := by
  induction k with
  | zero =>
    intro s h0 h1 _
    refine ⟨s, rfl, rfl, ?_, fun h => absurd h (by decide)⟩
    rw [Nat.cast_zero, Int.neg_zero, Int.add_zero, Int.emod_eq_of_lt h0 h1]
  | succ k ih =>
    intro s h0 h1 h2
    have hpos : (0 : Int) < s.wallpaperPaths.length := by omega
    obtain ⟨p, hp, he⟩ := previousHandler_eq s h0 h1 h2
    obtain ⟨s2, he2, hp2, hi2, hd2⟩ := ih
      { s with
        currentWallpaperIndex :=
          (s.currentWallpaperIndex - 1 + s.wallpaperPaths.length) % s.wallpaperPaths.length
        wallpaperObjects := [p] }
      (Int.emod_nonneg _ (by omega)) (Int.emod_lt_of_pos _ hpos) h2
    refine ⟨s2, ?_, hp2, ?_, fun _ => ?_⟩
    · simp only [iterate, he, he2]
    · rw [hi2]
      show ((s.currentWallpaperIndex - 1 + (s.wallpaperPaths.length : Int)) %
        (s.wallpaperPaths.length : Int) + -(k : Int)) % (s.wallpaperPaths.length : Int) = _
      rw [Int.emod_add_emod, Nat.cast_succ,
        show s.currentWallpaperIndex - 1 + (s.wallpaperPaths.length : Int) + -(k : Int) =
          s.currentWallpaperIndex + -((k : Int) + 1) + (s.wallpaperPaths.length : Int) by ring,
        Int.add_emod_self]
    · rcases Nat.eq_zero_or_pos k with hk | hk
      · subst hk
        have hs2 : s2 = _ := (Option.some.inj he2).symm
        rw [hs2]
        exact ⟨p, hp, rfl⟩
      · exact hd2 hk

/-- C7: on a catalog of length `N ≥ 1`, from any cursor `c` with `0 ≤ c < N`, `N`
Next taps in a row end with the cursor at `c` and the path at `c` displayed, and
so do `N` Previous taps in a row. -/
theorem full_cycle_returns (s : AppState) (h0 : 0 ≤ s.currentWallpaperIndex)
    (h1 : s.currentWallpaperIndex < s.wallpaperPaths.length)
    (hmax : (s.wallpaperPaths.length : Int) < 2 ^ 63) :
    ∃ p, index s.wallpaperPaths s.currentWallpaperIndex = some p ∧
      (∃ s1, iterate nextHandler s.wallpaperPaths.length s = some s1 ∧
        s1.currentWallpaperIndex = s.currentWallpaperIndex ∧ s1.wallpaperObjects = [p]) ∧
      (∃ s1, iterate previousHandler s.wallpaperPaths.length s = some s1 ∧
        s1.currentWallpaperIndex = s.currentWallpaperIndex ∧ s1.wallpaperObjects = [p]) := by
  have hpos : 0 < s.wallpaperPaths.length := by omega
  obtain ⟨p, hp⟩ := index_of_bounds _ _ h0 h1
  obtain ⟨s1, he1, hp1, hi1, hd1⟩ := iterate_next s.wallpaperPaths.length s h0 h1 hmax
  obtain ⟨s2, he2, hp2, hi2, hd2⟩ := iterate_previous s.wallpaperPaths.length s h0 h1 hmax
  rw [Int.add_emod_self, Int.emod_eq_of_lt h0 h1] at hi1
  have hi2b : s2.currentWallpaperIndex = s.currentWallpaperIndex := by
    rw [hi2, show s.currentWallpaperIndex + -(s.wallpaperPaths.length : Int) =
      s.currentWallpaperIndex + (s.wallpaperPaths.length : Int) * (-1) by ring,
      Int.add_mul_emod_self_left, Int.emod_eq_of_lt h0 h1]
  obtain ⟨q1, hq1, ho1⟩ := hd1 hpos
  obtain ⟨q2, hq2, ho2⟩ := hd2 hpos
  rw [hp1, hi1, hp] at hq1
  rw [hp2, hi2b, hp] at hq2
  refine ⟨p, hp, ⟨s1, he1, hi1, ?_⟩, ⟨s2, he2, hi2b, ?_⟩⟩
  · rw [ho1, Option.some.inj hq1]
  · rw [ho2, Option.some.inj hq2]

/-- Witness of C7: the program's own catalog of two paths, from cursor 0. -/
theorem full_cycle_returns_witness :
    ∃ p, index initialState.wallpaperPaths initialState.currentWallpaperIndex = some p ∧
      (∃ s1, iterate nextHandler initialState.wallpaperPaths.length initialState = some s1 ∧
        s1.currentWallpaperIndex = initialState.currentWallpaperIndex ∧
        s1.wallpaperObjects = [p]) ∧
      (∃ s1, iterate previousHandler initialState.wallpaperPaths.length initialState = some s1 ∧
        s1.currentWallpaperIndex = initialState.currentWallpaperIndex ∧
        s1.wallpaperObjects = [p]) :=
  full_cycle_returns initialState (by decide) (by decide) (by decide)


/-! ## UI flow -/

theorem signUpSubmit_pass (w : MailWorld) (s : AppState) (email password confirm : String)
    (h1 : validateEmail email = true) (h2 : password = confirm)
    (h3 : validatePassword password = true) :
    ∃ s2 err, sendEmail w { s with signUpHidden := true } email = some (s2, err) ∧
      s2.content = s.content ∧
      signUpSubmit w s email password confirm =
        some (if err = none then showVerificationCodeInput s2 else s2,
          [Effect.callSendEmail email]) := by
  obtain ⟨err, he⟩ := sendEmail_stores w { s with signUpHidden := true } email
  refine ⟨_, err, he, rfl, ?_⟩
  unfold signUpSubmit
  rw [if_pos h1, if_pos h2, if_pos h3]
  simp only [he]
  cases err <;> rfl

theorem signUpSubmit_fail (w : MailWorld) (s : AppState) (email password confirm : String)
    (h : ¬ (validateEmail email = true ∧ password = confirm ∧
      validatePassword password = true)) :
    signUpSubmit w s email password confirm = some (s, [Effect.newLabel
      (if validateEmail email = true then
        if password = confirm then "Password must be at least 8 characters long"
        else "Passwords do not match"
      else "Invalid email address")]) := by
  unfold signUpSubmit
  by_cases h1 : validateEmail email = true
  · by_cases h2 : password = confirm
    · have h3 : ¬ validatePassword password = true := fun h3 => h ⟨h1, h2, h3⟩
      rw [if_pos h1, if_pos h2, if_neg h3, if_pos h1, if_pos h2]
    · rw [if_pos h1, if_neg h2, if_pos h1, if_neg h2]
  · rw [if_neg h1, if_neg h1]

/-- C9: the Sign Up handler calls `sendEmail` exactly when the e-mail is valid,
the two passwords are equal and the password is long enough, the checks being
made in that order (the first failing one decides the label); when a check fails
there is no call, and the state (stored code, window content) is unchanged; the
content becomes the verification-code screen exactly when all checks passed and
`sendEmail` returned no error, and otherwise remains the sign-up form. -/
theorem signUp_gate (w : MailWorld) (s : AppState) (email password confirm : String)
    (hs : s.content = Screen.signUp) :
    ∃ s1 effects, signUpSubmit w s email password confirm = some (s1, effects) ∧
      (Effect.callSendEmail email ∈ effects ↔
        (validateEmail email = true ∧ password = confirm ∧
          validatePassword password = true)) ∧
      (validateEmail email = false → effects = [Effect.newLabel "Invalid email address"]) ∧
      (validateEmail email = true → password ≠ confirm →
        effects = [Effect.newLabel "Passwords do not match"]) ∧
      (validateEmail email = true → password = confirm → validatePassword password = false →
        effects = [Effect.newLabel "Password must be at least 8 characters long"]) ∧
      (¬ (validateEmail email = true ∧ password = confirm ∧
          validatePassword password = true) →
        (∀ m, Effect.callSendEmail m ∉ effects) ∧ s1 = s) ∧
      (s1.content = Screen.verifyCode ↔
        ((validateEmail email = true ∧ password = confirm ∧
            validatePassword password = true) ∧
          ∃ s2, sendEmail w { s with signUpHidden := true } email = some (s2, none))) ∧
      (s1.content = Screen.verifyCode ∨ s1.content = Screen.signUp) := by
  by_cases h : validateEmail email = true ∧ password = confirm ∧
      validatePassword password = true
  · obtain ⟨s2, err, he, hc, hsub⟩ := signUpSubmit_pass w s email password confirm h.1 h.2.1 h.2.2
    refine ⟨_, _, hsub, ?_, ?_, ?_, ?_, ?_, ?_, ?_⟩
    · exact ⟨fun _ => h, fun _ => List.mem_singleton.2 rfl⟩
    · intro h1; rw [h.1] at h1; exact absurd h1 (by decide)
    · intro _ h2; exact absurd h.2.1 h2
    · intro _ _ h3; rw [h.2.2] at h3; exact absurd h3 (by decide)
    · intro hn; exact absurd h hn
    · cases err with
      | none =>
        simp only [if_true]
        exact ⟨fun _ => ⟨h, s2, he⟩, fun _ => rfl⟩
      | some e =>
        have hne : ¬ (some e = none) := by simp
        simp only [if_neg hne]
        constructor
        · intro hv
          rw [hc, hs] at hv
          exact absurd hv (by decide)
        · rintro ⟨-, s3, h3⟩
          rw [he] at h3
          simp at h3
    · cases err with
      | none => left; rfl
      | some e =>
        have hne : ¬ (some e = none) := by simp
        right
        simp only [if_neg hne]
        rw [hc, hs]
  · refine ⟨_, _, signUpSubmit_fail w s email password confirm h, ?_, ?_, ?_, ?_, ?_, ?_, ?_⟩
    · exact ⟨fun hm => by simp at hm, fun hp => absurd hp h⟩
    · intro h1
      have hn : ¬ validateEmail email = true := by rw [h1]; decide
      rw [if_neg hn]
    · intro h1 h2
      rw [if_pos h1, if_neg h2]
    · intro h1 h2 _
      rw [if_pos h1, if_pos h2]
    · intro _
      exact ⟨fun m hm => by simp at hm, rfl⟩
    · constructor
      · intro hv
        rw [hs] at hv
        exact absurd hv (by decide)
      · rintro ⟨hp, -⟩
        exact absurd hp h
    · right; exact hs

set_option maxRecDepth 100000 in
/-- Witness of C9: the sign-up form with the e-mail "not-an-email" and the
password "whatever1" typed twice. -/
theorem signUp_gate_witness :
    ∃ s1 effects,
      signUpSubmit noConfigWorld
        (ShowSignUpForm initialState) "not-an-email" "whatever1" "whatever1" =
        some (s1, effects) ∧
      effects = [Effect.newLabel "Invalid email address"] ∧
      s1 = ShowSignUpForm initialState :=
  match signUp_gate noConfigWorld
      (ShowSignUpForm initialState) "not-an-email" "whatever1" "whatever1" rfl with
  | ⟨s1, effects, h, _, h1, _, _, h4, _, _⟩ =>
    ⟨s1, effects, h, h1 (by decide), (h4 (by decide)).2⟩

theorem handle_keeps_code (s : AppState) (e : Event) (s1 : AppState) (effects : List Effect)
    (h : handle s e = some (s1, effects)) (hno : ∀ m, Effect.callSendEmail m ∉ effects) :
    s1.verificationCode = s.verificationCode := by
  cases e with
  | tapSignUp =>
    simp only [handle, Option.some.injEq, Prod.mk.injEq] at h
    rw [← h.1]; rfl
  | tapTest =>
    simp only [handle, Option.some.injEq, Prod.mk.injEq] at h
    rw [← h.1]; rfl
  | submitSignUp w email password confirm =>
    simp only [handle] at h
    by_cases hc : validateEmail email = true ∧ password = confirm ∧
        validatePassword password = true
    · obtain ⟨s2, err, -, -, hsub⟩ := signUpSubmit_pass w s email password confirm
        hc.1 hc.2.1 hc.2.2
      rw [hsub] at h
      simp only [Option.some.injEq, Prod.mk.injEq] at h
      exact absurd (by rw [← h.2]; simp) (hno email)
    · rw [signUpSubmit_fail w s email password confirm hc] at h
      simp only [Option.some.injEq, Prod.mk.injEq] at h
      rw [← h.1]
  | submitVerify code =>
    simp only [handle, verifySubmit, Option.some.injEq] at h
    split at h
    · simp only [Prod.mk.injEq] at h
      rw [← h.1]
      rfl
    · simp only [Prod.mk.injEq] at h
      rw [← h.1]
  | tapPrevious =>
    simp only [handle, previousHandler] at h
    split at h
    · simp at h
    · simp only [Option.map_some', Option.some.injEq, Prod.mk.injEq] at h
      rw [← h.1]
  | tapNext =>
    simp only [handle, nextHandler] at h
    split at h
    · simp at h
    · simp only [Option.map_some', Option.some.injEq, Prod.mk.injEq] at h
      rw [← h.1]
  | tapSetWallpaper w =>
    simp only [handle, setWallpaperHandler] at h
    split at h
    · simp at h
    · split at h <;>
        (simp only [Option.some.injEq, Prod.mk.injEq] at h; rw [← h.1])

theorem run_keeps_code (evs : List Event) : ∀ (s s1 : AppState) (effects : List Effect),
    run s evs = some (s1, effects) → (∀ m, Effect.callSendEmail m ∉ effects) →
    s1.verificationCode = s.verificationCode := by
  induction evs with
  | nil =>
    intro s s1 effects h _
    simp only [run, Option.some.injEq, Prod.mk.injEq] at h
    rw [← h.1]
  | cons e evs ih =>
    intro s s1 effects h hno
    simp only [run] at h
    cases hst : step s e with
    | none => simp [hst] at h
    | some r1 =>
      obtain ⟨t, eff1⟩ := r1
      simp only [hst] at h
      cases hr : run t evs with
      | none => simp [hr] at h
      | some r2 =>
        obtain ⟨u, eff2⟩ := r2
        simp only [hr, Option.some.injEq, Prod.mk.injEq] at h
        obtain ⟨hu, heff⟩ := h
        subst hu
        subst heff
        have h2 := ih t u eff2 hr (fun m hm => hno m (List.mem_append_right _ hm))
        have h1 : t.verificationCode = s.verificationCode := by
          unfold step at hst
          split at hst
          · exact handle_keeps_code s e t eff1 hst
              (fun m hm => hno m (List.mem_append_left _ hm))
          · simp only [Option.some.injEq, Prod.mk.injEq] at hst
            rw [← hst.1]
        rw [h2, h1]

/-- C8: `validateCode` is true exactly when the candidate equals the stored code
as a string; the Verify handler, which makes the call, leaves the stored code as
it was, and so does every sequence of user actions in which `sendEmail` is not
called, so that a later `validateCode` on the same candidate gives the same
result. -/
theorem validateCode_exact (s s1 : AppState) (c : String) (evs : List Event)
    (effects : List Effect) (hrun : run s evs = some (s1, effects))
    (hno : ∀ m, Effect.callSendEmail m ∉ effects) :
    (validateCode s c = true ↔ c = s.verificationCode) ∧
      (verifySubmit s c).1.verificationCode = s.verificationCode ∧
      s1.verificationCode = s.verificationCode ∧
      validateCode s1 c = validateCode s c := by
  have hk := run_keeps_code evs s s1 effects hrun hno
  refine ⟨by simp [validateCode], ?_, hk, by simp only [validateCode, hk]⟩
  unfold verifySubmit
  split <;> rfl

/-- Witness of C8: the stored code "482913", a wrong and then the right
candidate typed on the verification screen. -/
theorem validateCode_exact_witness :
    (validateCode verifyingState "482913" = true ↔
      "482913" = verifyingState.verificationCode) ∧
    (homepage verifyingState).verificationCode = verifyingState.verificationCode ∧
    validateCode (homepage verifyingState) "482913" = validateCode verifyingState "482913" :=
  match validateCode_exact verifyingState (homepage verifyingState) "482913"
      [Event.submitVerify "000000", Event.submitVerify "482913"]
      [Effect.callValidateCode "000000", Effect.showError "Invalid verification code",
        Effect.callValidateCode "482913",
        Effect.showInformation "Verification Successful" "Code verified successfully!"]
      (by decide) (fun m hm => by simp at hm) with
  | ⟨h1, _, h3, h4⟩ => ⟨h1, h3, h4⟩

/-- C10: from the initial Home screen the single tap on "Test" opens the
wallpaper browser with the cursor at 0 and "Set Wallpaper" on the screen, and
neither `sendEmail` nor `validateCode` has been called. -/
theorem test_button_skips_verification :
    initialState.content = Screen.home ∧
    available initialState.content Event.tapTest = true ∧
    ∃ s effects, run initialState [Event.tapTest] = some (s, effects) ∧
      (∀ m, Effect.callSendEmail m ∉ effects) ∧
      (∀ c, Effect.callValidateCode c ∉ effects) ∧
      s.content = Screen.wallpaper ∧ s.currentWallpaperIndex = 0 ∧
      (∀ w, available s.content (Event.tapSetWallpaper w) = true) ∧
      (∀ w, ∃ r, step s (Event.tapSetWallpaper w) = some r) := by
  refine ⟨rfl, rfl, homepage initialState, [], by decide, fun m hm => by simp at hm,
    fun c hc => by simp at hc, rfl, rfl, fun _ => rfl, fun w => ?_⟩
  have hp : index (homepage initialState).wallpaperPaths
      (homepage initialState).currentWallpaperIndex = some "ui/assets/001.jpg" := by decide
  have hstep : step (homepage initialState) (Event.tapSetWallpaper w) =
      setWallpaperHandler w (homepage initialState) := rfl
  rw [hstep]
  obtain ⟨r, hr, -⟩ := Option.map_eq_some'.1
    (setWallpaperHandler_state w (homepage initialState) _ hp)
  exact ⟨r, hr⟩

end WallpaperChanger
